import Mathlib

/-!
Verification of the Costco car-rental price-checker service.

The definitions below are a shallow embedding of the Python sources
`src/services/price_checker.py` and `src/run_price_checker.py`:

* prices are modelled as rationals (`ℚ`);
* a rendered result row is modelled by `Row`, whose fields are `Option`s
  because reading the category label or the price attribute of a row can
  fail (the Python code wraps each row in `try/except` and skips it);
* the Python `dict` used by `extract_prices` is modelled as an
  insertion-ordered association list with `dictInsert` (update in place
  keeps the position of the first insertion, as CPython dicts do);
* fallible operations return `Except String`, mirroring raised exceptions;
* the Supabase `price_history` table is modelled as a list of `Snapshot`s
  to which `store_prices` appends.
-/

/-- Lower bound `MIN_PRICE = 20.0` from `PriceExtractor.validate_price`. -/
def MIN_PRICE : ℚ := 20

/-- Upper bound `MAX_PRICE = 5000.0` from `PriceExtractor.validate_price`. -/
def MAX_PRICE : ℚ := 5000

/-- Embedding of `PriceExtractor.validate_price`: Python runs
`if not MIN_PRICE <= price <= MAX_PRICE: return False` and otherwise
returns `True`, so both bounds are inclusive. -/
def validate_price (price : ℚ) (category : String) : Bool :=
  if ¬ (MIN_PRICE ≤ price ∧ price ≤ MAX_PRICE) then false else true

/-- A rendered result row as `extract_prices` sees it: the category label
(`.car-category-name` text) and the price (`data-price` attribute parsed by
`float`). `none` models a read or parse failure for that part of the row. -/
structure Row where
  category : Option String
  price : Option ℚ

/-- Reading one row inside the `try` block of `extract_prices`: succeeds
only when both the label and the price can be read. -/
def readRow (r : Row) : Option (String × ℚ) :=
  match r.category, r.price with
  | some c, some p => some (c, p)
  | _, _ => none

/-- CPython dict assignment `prices[category] = v` on an insertion-ordered
association list: an existing key keeps its position and gets the new
value, a new key is appended at the end. -/
def dictInsert (m : List (String × ℚ)) (k : String) (v : ℚ) :
    List (String × ℚ) :=
  if m.any (fun p => p.1 = k) then
    m.map (fun p => if p.1 = k then (k, v) else p)
  else
    m ++ [(k, v)]

/-- The `for row in car_rows` loop of `extract_prices`: rows that fail to
read are skipped (`except ... continue`), readable rows are written into
the dict. -/
def extractLoop (m : List (String × ℚ)) : List Row → List (String × ℚ)
  | [] => m
  | r :: rest =>
    match readRow r with
    | some cp => extractLoop (dictInsert m cp.1 cp.2) rest
    | none => extractLoop m rest

/-- The quote built by the extraction loop starting from the empty dict. -/
def extractQuote (rows : List Row) : List (String × ℚ) :=
  extractLoop [] rows

/-- Embedding of `PriceExtractor.extract_prices`: the initial
`WebDriverWait(...30...)` for `div[role="row"]` raises a timeout when no
row is present; otherwise every row is processed by the loop. Note that
the Python method never calls `validate_price`. -/
def extract_prices (rows : List Row) : Except String (List (String × ℚ)) :=
  if rows.isEmpty then Except.error "Timeout waiting for price elements"
  else Except.ok (extractQuote rows)

/-- Association-list lookup on a quote (CPython dict lookup). -/
def quoteLookup (m : List (String × ℚ)) (c : String) : Option ℚ :=
  match m with
  | [] => none
  | p :: rest => if p.1 = c then some p.2 else quoteLookup rest c

/-- The price carried by the last readable pair for a given label, i.e.
what "later rows overwrite earlier ones" predicts for that label. -/
def lastPriceIn (pairs : List (String × ℚ)) (c : String) : Option ℚ :=
  match pairs with
  | [] => none
  | p :: rest =>
    match lastPriceIn rest c with
    | some w => some w
    | none => if p.1 = c then some p.2 else none

/-- One step of Python `min(..., key=lambda x: x[1])`: the running minimum
is replaced only when the new element is strictly smaller, so on ties the
earlier element is kept. -/
def minStep (x y : String × ℚ) : String × ℚ :=
  if y.2 < x.2 then y else x

/-- The left fold Python `min` performs after taking the first element. -/
def minFrom (x : String × ℚ) : List (String × ℚ) → String × ℚ
  | [] => x
  | y :: ys => minFrom (minStep x y) ys

/-- Python `min(prices.items(), key=lambda x: x[1])`: raises `ValueError`
on an empty sequence, modelled by `none`. -/
def minByVal : List (String × ℚ) → Option (String × ℚ)
  | [] => none
  | x :: xs => some (minFrom x xs)

/-- A row of the `price_history` table as built by
`SupabaseClient.store_prices`. -/
structure Snapshot where
  booking_id : String
  prices : List (String × ℚ)
  lowest_price_category : String
  lowest_price : ℚ
  created_at : String

/-- Embedding of `SupabaseClient.store_prices`: computes the lowest
price/category with Python `min` over the quote's items, then inserts a
new row into `price_history`. On an empty quote `min` raises before any
insert, the `except` block re-raises, and the store is unchanged. The
first component is the store after the call, the second the outcome. -/
def store_prices (store : List Snapshot) (booking_id : String)
    (prices : List (String × ℚ)) (now : String) :
    List Snapshot × Except String Snapshot :=
  match minByVal prices with
  | none => (store, Except.error "min() arg is an empty sequence")
  | some cp =>
    let snap : Snapshot :=
      { booking_id := booking_id, prices := prices,
        lowest_price_category := cp.1, lowest_price := cp.2,
        created_at := now }
    (store ++ [snap], Except.ok snap)

/-- Time conversion defined inside the live `fill_search_form`
(`convert_time`): only `"12:00 PM"` is rewritten, everything else —
including `"12:00 AM"` — passes through unchanged. -/
def convert_time (time_str : String) : String :=
  if time_str = "12:00 PM" then "Noon" else time_str

/-- Time conversion from the orphaned duplicate form-fill code
(`convert_to_costco_time`): rewrites both noon and midnight. This variant
is not reached by the live form-filling path. -/
def convert_to_costco_time (time_str : String) : String :=
  if time_str = "12:00 PM" then "Noon"
  else if time_str = "12:00 AM" then "Midnight"
  else time_str

/-- Whether `needle` occurs at the head of `hay`. -/
def leadingMatch : List Char → List Char → Bool
  | [], _ => true
  | _ :: _, [] => false
  | c :: cs, d :: ds => c == d && leadingMatch cs ds

/-- Whether `needle` occurs contiguously anywhere in `hay`
(XPath `contains`). -/
def subSeqAt (needle : List Char) : List Char → Bool
  | [] => leadingMatch needle []
  | d :: ds => leadingMatch needle (d :: ds) || subSeqAt needle ds

/-- XPath `contains(text(), q)`: the suggestion text `hay` contains `q`. -/
def strContains (hay q : String) : Bool :=
  subSeqAt q.toList hay.toList

/-- Embedding of the dropdown resolution in the live `fill_search_form`:
the first attempt locates the first suggestion whose text `contains` the
requested location (XPath `contains(text(), booking.location)`); only if
that times out is the first suggestion of the list clicked
(`ul.ui-autocomplete li:first-child`); if that also fails the whole form
fill raises. There is no exact-text tier in the code. -/
def resolveSuggestion (query : String) (suggestions : List String) :
    Except String String :=
  match suggestions.find? (fun s => strContains s query) with
  | some s => Except.ok s
  | none =>
    match suggestions.head? with
    | some s => Except.ok s
    | none => Except.error "Fallback dropdown selection failed"

/-- Outcomes of the fallible steps of one `check_prices` call. The
trailing orphaned code after the `try/finally` (lines 350-490 of
`price_checker.py`, left behind when its `def` line was commented out)
performs browser operations but contains no `driver.quit()` call; its
outcome is `tailOk`. -/
structure CheckEnv where
  bookingFound : Bool
  setupOk : Bool
  navOk : Bool
  fillOk : Bool
  extractOk : Bool
  storeOk : Bool
  tailOk : Bool

/-- Control-flow skeleton of `PriceChecker.check_prices`: fetch the
booking, create the driver, then run navigation, form fill, extraction
and storage inside a `try` whose `finally` quits the driver; the orphaned
trailing code runs afterwards on the success path. The first component
counts `driver.quit()` calls, the second is the outcome of the call. -/
def check_prices (env : CheckEnv) : Nat × Except String Unit :=
  if env.bookingFound = false then
    (0, Except.error "Booking not found")
  else if env.setupOk = false then
    (0, Except.error "Error setting up Chrome WebDriver")
  else
    let inner : Except String Unit :=
      if env.navOk = false then Except.error "navigation failed"
      else if env.fillOk = false then Except.error "Error filling search form"
      else if env.extractOk = false then Except.error "Timeout waiting for price rows"
      else if env.storeOk = false then Except.error "Error storing prices"
      else Except.ok ()
    match inner with
    | Except.error e => (1, Except.error e)
    | Except.ok _ =>
      (1, if env.tailOk then Except.ok () else Except.error "stale session")

/-- The error message of a per-booking outcome, `none` on success. -/
def errOf : Except String Unit → Option String
  | Except.ok _ => none
  | Except.error e => some e

/-- The `for booking in bookings.data` loop of `run_price_checker.main`:
each booking's check runs inside `try/except`; an error is logged and the
loop continues with the next booking. The function returns the list of
per-booking outcomes; it has no error result, mirroring that the loop
never re-raises. -/
def mainLoop (check : String → Except String Unit) :
    List String → List (String × Option String)
  | [] => []
  | id :: rest =>
    match check id with
    | Except.ok _ => (id, none) :: mainLoop check rest
    | Except.error e => (id, some e) :: mainLoop check rest

/-- C1 (code bug evidence): `extract_prices` never invokes
`validate_price`, so the out-of-bounds row priced 8000.00 is kept in the
quote next to the 60.00 row, although `validate_price` rejects 8000.00. -/
theorem extract_prices_skips_validation :
    extract_prices [⟨some "Standard", some 8000⟩, ⟨some "Economy", some 60⟩] =
      Except.ok [("Standard", 8000), ("Economy", 60)] ∧
    validate_price 8000 "Standard" = false := by
  constructor
  · rfl
  · decide

/-- C3: recording an empty quote fails (`min` raises on the empty items
sequence before the insert runs) and leaves the snapshot store unchanged. -/
theorem store_prices_empty_fails (store : List Snapshot) (b now : String) :
    (store_prices store b [] now).1 = store ∧
    (store_prices store b [] now).2 =
      Except.error "min() arg is an empty sequence" := by
  exact ⟨rfl, rfl⟩

/-- C4 (counterexample): the live form-fill conversion `convert_time`
leaves `"12:00 AM"` unchanged, so it does not map it to `"Midnight"` as
the claim states. -/
theorem convert_time_midnight_cex :
    convert_time "12:00 AM" = "12:00 AM" ∧
    convert_time "12:00 AM" ≠ "Midnight" := by
  constructor
  · rfl
  · decide

/-- C4 (amended): the mapping used when filling the search form sends
`"12:00 PM"` to `"Noon"` and every other string — `"12:00 AM"` included —
to itself; only the unused duplicate `convert_to_costco_time` also sends
`"12:00 AM"` to `"Midnight"`. -/
theorem convert_time_amended :
    convert_time "12:00 PM" = "Noon" ∧
    convert_to_costco_time "12:00 AM" = "Midnight" ∧
    ∀ s : String, s ≠ "12:00 PM" → convert_time s = s := by
  refine ⟨rfl, rfl, ?_⟩
  intro s h
  unfold convert_time
  rw [if_neg h]

/-- C4 witness: the amended statement evaluated at `"12:00 PM"` and at the
ordinary time `"3:30 PM"`. -/
theorem convert_time_amended_witness :
    convert_time "12:00 PM" = "Noon" ∧ convert_time "3:30 PM" = "3:30 PM" :=
  ⟨convert_time_amended.1, convert_time_amended.2.2 "3:30 PM" (by decide)⟩

/-- C6 (counterexample): the bounds are inclusive in the code, so the
boundary prices 20 and 5000 are accepted, not rejected as the claim
states. -/
theorem validate_price_strict_cex :
    validate_price 20 "Economy" = true ∧ validate_price 5000 "SUV" = true := by
  exact ⟨by decide, by decide⟩

/-- C6 (amended): `validate_price` accepts exactly the closed interval:
true iff `20 ≤ p ∧ p ≤ 5000`, prices at the bounds included. -/
theorem validate_price_inclusive (p : ℚ) (c : String) :
    validate_price p c = true ↔ (20 ≤ p ∧ p ≤ 5000) := by
  simp only [validate_price, MIN_PRICE, MAX_PRICE]
  split_ifs with h
  · exact ⟨fun _ => h, fun _ => rfl⟩
  · exact ⟨fun hf => absurd hf (by simp), fun hx => absurd hx h⟩

/-- C6 witness: an interior price is accepted via the amended theorem. -/
theorem validate_price_inclusive_witness :
    validate_price 60 "Economy" = true :=
  (validate_price_inclusive 60 "Economy").mpr (by norm_num)

/-- C7: once the booking is found and the driver is created, every exit
path of `check_prices` — any combination of navigation, form-fill,
extraction, storage and trailing-code outcomes — quits the driver exactly
once, via the `finally` block. -/
theorem check_prices_quits_once (env : CheckEnv)
    (h1 : env.bookingFound = true) (h2 : env.setupOk = true) :
    (check_prices env).1 = 1 := by
  have henv : env = ⟨true, true, env.navOk, env.fillOk, env.extractOk,
      env.storeOk, env.tailOk⟩ := by
    cases env
    simp_all
  rw [henv]
  cases env.navOk <;> cases env.fillOk <;> cases env.extractOk <;>
    cases env.storeOk <;> cases env.tailOk <;> rfl

/-- C7 witness: the all-success run quits the driver exactly once. -/
theorem check_prices_quits_once_witness :
    (check_prices ⟨true, true, true, true, true, true, true⟩).1 = 1 :=
  check_prices_quits_once ⟨true, true, true, true, true, true, true⟩ rfl rfl

/-- Helper: the batch loop visits every booking id in order. -/
theorem mainLoop_map_fst (check : String → Except String Unit) :
    ∀ ids : List String, (mainLoop check ids).map Prod.fst = ids
  | [] => rfl
  | a :: t => by
    cases h : check a <;>
      simp [mainLoop, h, mainLoop_map_fst check t]

/-- Helper: the batch loop's entry for position `j` records booking `j`'s
own outcome, independent of every other booking. -/
theorem mainLoop_get (check : String → Except String Unit) :
    ∀ (ids : List String) (j : Nat) (jd : String), ids.get? j = some jd →
      (mainLoop check ids).get? j = some (jd, errOf (check jd))
  | [], _, _, h => by simp at h
  | a :: t, 0, jd, h => by
    simp only [List.get?_cons_zero, Option.some.injEq] at h
    subst h
    cases hc : check a <;> simp [mainLoop, hc, errOf]
  | a :: t, j + 1, jd, h => by
    have ih := mainLoop_get check t j jd (by simpa using h)
    cases hc : check a <;> simp [mainLoop, hc] <;> simpa using ih

/-- C8: even when the check of booking `k` raises an error, the batch loop
of `run_price_checker.main` returns normally with one entry per booking:
every booking, failing or not, is processed and carries its own outcome,
so no per-reservation error escapes the loop. -/
theorem batch_isolation (check : String → Except String Unit)
    (ids : List String) (k : Nat) (kid e : String)
    (hk : ids.get? k = some kid) (he : check kid = Except.error e) :
    (mainLoop check ids).map Prod.fst = ids ∧
    ∀ j jd, ids.get? j = some jd →
      (mainLoop check ids).get? j = some (jd, errOf (check jd)) :=
  ⟨mainLoop_map_fst check ids, fun j jd hj => mainLoop_get check ids j jd hj⟩

/-- A concrete per-booking check that throws only for booking `"B2"`,
used to witness the batch-isolation theorem. -/
def checkOneBad : String → Except String Unit := fun id =>
  if id = "B2" then Except.error "form interaction failed" else Except.ok ()

/-- C8 witness: in the batch `["B1", "B2", "B3"]` where `"B2"` throws,
all three bookings are processed and the neighbours succeed. -/
theorem batch_isolation_witness :
    (mainLoop checkOneBad ["B1", "B2", "B3"]).map Prod.fst =
      ["B1", "B2", "B3"] ∧
    (mainLoop checkOneBad ["B1", "B2", "B3"]).get? 0 = some ("B1", none) ∧
    (mainLoop checkOneBad ["B1", "B2", "B3"]).get? 2 = some ("B3", none) :=
  have h := batch_isolation checkOneBad ["B1", "B2", "B3"] 1 "B2"
    "form interaction failed" rfl rfl
  ⟨h.1, h.2 0 "B1" rfl, h.2 2 "B3" rfl⟩

/-- Helper: an unreadable row anywhere in the row list leaves the
extraction loop's result unchanged. -/
theorem extractLoop_skip (r : Row) (h : readRow r = none) :
    ∀ (pre post : List Row) (m : List (String × ℚ)),
      extractLoop m (pre ++ r :: post) = extractLoop m (pre ++ post)
  | [], post, m => by simp [extractLoop, h]
  | a :: t, post, m => by
    cases ha : readRow a <;>
      simp [extractLoop, ha, extractLoop_skip r h t post]

/-- Helper: the extraction loop computes the same quote on the readable
sublist of its input. -/
theorem extractLoop_filter :
    ∀ (rows : List Row) (m : List (String × ℚ)),
      extractLoop m rows =
        extractLoop m (rows.filter (fun t => (readRow t).isSome))
  | [], _ => rfl
  | a :: t, m => by
    cases ha : readRow a <;>
      simp [extractLoop, List.filter, ha, Option.isSome, extractLoop_filter t]

/-- C9: one unreadable row (label or price cannot be read) is skipped on
its own: extraction still succeeds and returns exactly the quote of the
remaining rows, which is also the quote of the readable sublist. -/
theorem extract_skips_unreadable (pre post : List Row) (r : Row)
    (h : readRow r = none) :
    extract_prices (pre ++ r :: post) =
      Except.ok (extractQuote (pre ++ post)) ∧
    extractQuote (pre ++ r :: post) =
      extractQuote ((pre ++ r :: post).filter (fun t => (readRow t).isSome)) := by
  constructor
  · have hne : ((pre ++ r :: post).isEmpty = true) = False := by
      cases pre <;> simp
    simp only [extract_prices, hne, if_false, extractQuote]
    rw [extractLoop_skip r h pre post]
  · exact extractLoop_filter (pre ++ r :: post) []

/-- C9 witness: a readable 60.00 row followed by a row whose label cannot
be read yields the quote of the readable row alone. -/
theorem extract_skips_unreadable_witness :
    extract_prices [⟨some "Economy", some 60⟩, ⟨none, some 8000⟩] =
      Except.ok (extractQuote [⟨some "Economy", some 60⟩]) ∧
    extractQuote [⟨some "Economy", some 60⟩] = [("Economy", 60)] :=
  ⟨(extract_skips_unreadable [⟨some "Economy", some 60⟩] [] ⟨none, some 8000⟩
      rfl).1, rfl⟩

/-- Helper: looking a key up after the in-place update branch of
`dictInsert` replaces the stored value of `k` and nothing else. -/
theorem quoteLookup_map_set (k : String) (v : ℚ) :
    ∀ (m : List (String × ℚ)) (c : String),
      quoteLookup (m.map (fun p => if p.1 = k then (k, v) else p)) c =
        if c = k then (quoteLookup m k).map (fun _ => v)
        else quoteLookup m c
  | [], c => by by_cases h : c = k <;> simp [quoteLookup, h]
  | p :: rest, c => by
    have ih := quoteLookup_map_set k v rest
    by_cases hp : p.1 = k <;> by_cases hc : c = k <;>
      by_cases hpc : p.1 = c <;>
      simp_all [quoteLookup]

/-- Helper: looking up in a dict extended on the right by one binding. -/
theorem quoteLookup_append_single (k : String) (v : ℚ) :
    ∀ (m : List (String × ℚ)) (c : String),
      quoteLookup (m ++ [(k, v)]) c =
        match quoteLookup m c with
        | some w => some w
        | none => if k = c then some v else none
  | [], c => by simp [quoteLookup]
  | p :: rest, c => by
    by_cases hpc : p.1 = c <;>
      simp [quoteLookup, hpc, quoteLookup_append_single k v rest c]

/-- Helper: a key that occurs nowhere in the dict looks up to `none`. -/
theorem lookup_none_of_not_any (k : String) :
    ∀ m : List (String × ℚ), m.any (fun p => p.1 = k) = false →
      quoteLookup m k = none
  | [], _ => rfl
  | p :: rest, h => by
    simp only [List.any_cons, Bool.or_eq_false_iff,
      decide_eq_false_iff_not] at h
    simp [quoteLookup, h.1, lookup_none_of_not_any k rest (by simp [h.2])]

/-- Helper: a key that occurs in the dict looks up to some value. -/
theorem lookup_some_of_any (k : String) :
    ∀ m : List (String × ℚ), m.any (fun p => p.1 = k) = true →
      ∃ w, quoteLookup m k = some w
  | [], h => by simp at h
  | p :: rest, h => by
    by_cases hp : p.1 = k
    · exact ⟨p.2, by simp [quoteLookup, hp]⟩
    · have hrest : rest.any (fun p => p.1 = k) = true := by
        simpa [List.any_cons, hp] using h
      obtain ⟨w, hw⟩ := lookup_some_of_any k rest hrest
      exact ⟨w, by simp [quoteLookup, hp, hw]⟩

/-- Helper: `dictInsert` overwrites exactly the inserted key. -/
theorem quoteLookup_dictInsert (m : List (String × ℚ)) (k : String) (v : ℚ)
    (c : String) :
    quoteLookup (dictInsert m k v) c =
      if c = k then some v else quoteLookup m c := by
  cases hany : m.any (fun p => p.1 = k) with
  | true =>
    have hins : dictInsert m k v =
        m.map (fun p => if p.1 = k then (k, v) else p) := by
      unfold dictInsert
      rw [if_pos hany]
    rw [hins, quoteLookup_map_set k v m c]
    by_cases hc : c = k
    · obtain ⟨w, hw⟩ := lookup_some_of_any k m hany
      simp [hc, hw]
    · simp [hc]
  | false =>
    have hins : dictInsert m k v = m ++ [(k, v)] := by
      unfold dictInsert
      rw [if_neg (by simp [hany])]
    rw [hins, quoteLookup_append_single k v m c]
    by_cases hc : c = k
    · subst hc
      simp [lookup_none_of_not_any c m hany]
    · cases hq : quoteLookup m c <;> simp [hq, hc, Ne.symm hc]

/-- Helper: `dictInsert` keeps the key sequence, only appending a key that
was not present before. -/
theorem dictInsert_keys (m : List (String × ℚ)) (k : String) (v : ℚ) :
    (dictInsert m k v).map Prod.fst =
      if m.any (fun p => p.1 = k) then m.map Prod.fst
      else m.map Prod.fst ++ [k] := by
  unfold dictInsert
  split_ifs with h
  · rw [List.map_map]
    apply List.map_congr_left
    intro p _
    by_cases hp : p.1 = k <;> simp [hp]
  · simp

/-- Helper: `dictInsert` preserves distinctness of the keys. -/
theorem dictInsert_nodup (m : List (String × ℚ)) (k : String) (v : ℚ)
    (h : (m.map Prod.fst).Nodup) :
    ((dictInsert m k v).map Prod.fst).Nodup := by
  rw [dictInsert_keys]
  split_ifs with hany
  · exact h
  · have hk : k ∉ m.map Prod.fst := by
      intro hmem
      obtain ⟨p, hp, hpk⟩ := List.mem_map.mp hmem
      have htrue : m.any (fun p => p.1 = k) = true :=
        List.any_eq_true.mpr ⟨p, hp, by simp [hpk]⟩
      exact hany htrue
    simp [List.nodup_append, h, hk]

/-- Helper: the extraction loop keeps the quote's keys distinct. -/
theorem extractLoop_nodup :
    ∀ (rows : List Row) (m : List (String × ℚ)),
      (m.map Prod.fst).Nodup → ((extractLoop m rows).map Prod.fst).Nodup
  | [], _, h => h
  | r :: rest, m, h => by
    cases hr : readRow r with
    | none =>
      simpa [extractLoop, hr] using extractLoop_nodup rest m h
    | some cp =>
      simpa [extractLoop, hr] using
        extractLoop_nodup rest (dictInsert m cp.1 cp.2)
          (dictInsert_nodup m cp.1 cp.2 h)

/-- Helper: a label looks up in the loop's result to the price of the last
readable row carrying it, falling back to the initial dict. -/
theorem extractLoop_lookup :
    ∀ (rows : List Row) (m : List (String × ℚ)) (c : String),
      quoteLookup (extractLoop m rows) c =
        match lastPriceIn (rows.filterMap readRow) c with
        | some w => some w
        | none => quoteLookup m c
  | [], m, c => by simp [extractLoop, lastPriceIn]
  | r :: rest, m, c => by
    cases hr : readRow r with
    | none =>
      simp only [extractLoop, hr, List.filterMap_cons]
      exact extractLoop_lookup rest m c
    | some cp =>
      obtain ⟨k, v⟩ := cp
      simp only [extractLoop, hr, List.filterMap_cons]
      rw [extractLoop_lookup rest (dictInsert m k v) c,
        quoteLookup_dictInsert]
      cases hl : lastPriceIn (rest.filterMap readRow) c with
      | some w => simp [lastPriceIn, hl]
      | none =>
        by_cases hck : c = k
        · subst hck
          simp [lastPriceIn, hl]
        · simp [lastPriceIn, hl, hck, Ne.symm hck]

/-- C10: whenever extraction succeeds, each category label of the returned
quote is mapped to the price of the last readable row carrying that label
(later rows overwrite earlier ones), and the quote holds at most one
entry per label. -/
theorem extract_last_wins (rows : List Row) (q : List (String × ℚ))
    (h : extract_prices rows = Except.ok q) :
    (∀ c, quoteLookup q c = lastPriceIn (rows.filterMap readRow) c) ∧
    (q.map Prod.fst).Nodup := by
  have hq : extractQuote rows = q := by
    unfold extract_prices at h
    split_ifs at h with he
    exact Except.ok.inj h
  subst hq
  constructor
  · intro c
    rw [extractQuote, extractLoop_lookup rows [] c]
    cases hl : lastPriceIn (rows.filterMap readRow) c <;>
      simp [quoteLookup, hl]
  · exact extractLoop_nodup rows [] (by simp)

/-- C10 witness: two readable rows labelled `"Economy"`; the quote maps
the label to the later price 70 and has a single entry. -/
theorem extract_last_wins_witness :
    quoteLookup [("Economy", 70)] "Economy" =
      lastPriceIn [("Economy", 50), ("Economy", 70)] "Economy" ∧
    (([("Economy", (70 : ℚ))].map Prod.fst).Nodup) :=
  have h := extract_last_wins
    [⟨some "Economy", some 50⟩, ⟨some "Economy", some 70⟩]
    [("Economy", 70)] rfl
  ⟨h.1 "Economy", h.2⟩

/-- Helper: the fold of Python `min` returns either the seed (when nothing
beats it) or the element at the least index whose value is strictly below
the seed and everything before it — Python keeps the earlier element on a
tie because it replaces only on strict `<`. -/
theorem minFrom_spec :
    ∀ (ys : List (String × ℚ)) (x : String × ℚ),
      (minFrom x ys = x ∧ ∀ q ∈ ys, x.2 ≤ q.2) ∨
      (∃ i q, ys.get? i = some q ∧ minFrom x ys = q ∧ q.2 < x.2 ∧
        (∀ r ∈ ys, q.2 ≤ r.2) ∧
        ∀ j r, j < i → ys.get? j = some r → q.2 < r.2)
  | [], x => Or.inl ⟨rfl, by simp⟩
  | y :: ys, x => by
    have key : minFrom x (y :: ys) = minFrom (minStep x y) ys := rfl
    by_cases hyx : y.2 < x.2
    · have hstep : minStep x y = y := if_pos hyx
      rcases minFrom_spec ys y with ⟨heq, hle⟩ | ⟨i, q, hget, heq, hlt, hle, htie⟩
      · refine Or.inr ⟨0, y, rfl, ?_, hyx, ?_, ?_⟩
        · rw [key, hstep, heq]
        · intro r hr
          rcases List.mem_cons.mp hr with h | h
          · exact h ▸ le_refl _
          · exact hle r h
        · intro j r hj _
          exact absurd hj (Nat.not_lt_zero j)
      · refine Or.inr ⟨i + 1, q, by simpa using hget, ?_, lt_trans hlt hyx,
          ?_, ?_⟩
        · rw [key, hstep]
          exact heq
        · intro r hr
          rcases List.mem_cons.mp hr with h | h
          · exact h ▸ le_of_lt hlt
          · exact hle r h
        · intro j r hj hr
          cases j with
          | zero =>
            have hry : y = r := by simpa using hr
            exact hry ▸ hlt
          | succ j' =>
            exact htie j' r (Nat.lt_of_succ_lt_succ hj) (by simpa using hr)
    · have hstep : minStep x y = x := if_neg hyx
      have hxy : x.2 ≤ y.2 := le_of_not_lt hyx
      rcases minFrom_spec ys x with ⟨heq, hle⟩ | ⟨i, q, hget, heq, hlt, hle, htie⟩
      · refine Or.inl ⟨by rw [key, hstep, heq], ?_⟩
        intro q hq
        rcases List.mem_cons.mp hq with h | h
        · exact h ▸ hxy
        · exact hle q h
      · refine Or.inr ⟨i + 1, q, by simpa using hget,
          by rw [key, hstep]; exact heq, hlt, ?_, ?_⟩
        · intro r hr
          rcases List.mem_cons.mp hr with h | h
          · exact h ▸ le_trans (le_of_lt hlt) hxy
          · exact hle r h
        · intro j r hj hr
          cases j with
          | zero =>
            have hry : y = r := by simpa using hr
            exact hry ▸ lt_of_lt_of_le hlt hxy
          | succ j' =>
            exact htie j' r (Nat.lt_of_succ_lt_succ hj) (by simpa using hr)

/-- C2: recording a non-empty quote appends exactly one snapshot whose
`lowest_price` is a minimum of the quote's values and whose
`lowest_price_category` is the key paired with it at the first position
attaining the minimum — Python `min` keeps the first-encountered minimal
item, so ties resolve deterministically in iteration order. -/
theorem store_prices_lowest (store : List Snapshot) (b now : String)
    (prices : List (String × ℚ)) (h : prices ≠ []) :
    ∃ snap i,
      store_prices store b prices now = (store ++ [snap], Except.ok snap) ∧
      snap.booking_id = b ∧ snap.prices = prices ∧
      prices.get? i = some (snap.lowest_price_category, snap.lowest_price) ∧
      (∀ q ∈ prices, snap.lowest_price ≤ q.2) ∧
      (∀ j r, j < i → prices.get? j = some r →
        snap.lowest_price < r.2) := by
  obtain ⟨x, xs, rfl⟩ := List.exists_cons_of_ne_nil h
  refine ⟨⟨b, x :: xs, (minFrom x xs).1, (minFrom x xs).2, now⟩, ?_⟩
  rcases minFrom_spec xs x with ⟨heq, hle⟩ | ⟨i, q, hget, heq, hlt, hle, htie⟩
  · refine ⟨0, rfl, rfl, rfl, by simp [heq], ?_, ?_⟩
    · intro r hr
      show (minFrom x xs).2 ≤ r.2
      rw [heq]
      rcases List.mem_cons.mp hr with hrx | hrx
      · subst hrx
        exact le_refl _
      · exact hle r hrx
    · intro j r hj _
      exact absurd hj (Nat.not_lt_zero j)
  · refine ⟨i + 1, rfl, rfl, rfl, by simp [heq]; simpa using hget, ?_, ?_⟩
    · intro r hr
      show (minFrom x xs).2 ≤ r.2
      rw [heq]
      rcases List.mem_cons.mp hr with hrx | hrx
      · subst hrx
        exact le_of_lt hlt
      · exact hle r hrx
    · intro j r hj hr
      show (minFrom x xs).2 < r.2
      rw [heq]
      cases j with
      | zero =>
        have hxr : x = r := by simpa using hr
        exact hxr ▸ hlt
      | succ j' =>
        exact htie j' r (Nat.lt_of_succ_lt_succ hj) (by simpa using hr)

/-- C2 witness: the quote from end-to-end scenario A; the appended
snapshot carries the minimum 45 with category `"Economy"` at index 1 of
the quote, and index 0 is strictly more expensive. -/
theorem store_prices_lowest_witness :
    ∃ snap i,
      store_prices [] "B1" [("SUV", (120 : ℚ)), ("Economy", 45)] "t0" =
        ([] ++ [snap], Except.ok snap) ∧
      snap.booking_id = "B1" ∧
      snap.prices = [("SUV", (120 : ℚ)), ("Economy", 45)] ∧
      [("SUV", (120 : ℚ)), ("Economy", 45)].get? i =
        some (snap.lowest_price_category, snap.lowest_price) ∧
      (∀ q ∈ [("SUV", (120 : ℚ)), ("Economy", 45)],
        snap.lowest_price ≤ q.2) ∧
      (∀ j r, j < i →
        [("SUV", (120 : ℚ)), ("Economy", 45)].get? j = some r →
        snap.lowest_price < r.2) :=
  store_prices_lowest [] "B1" "t0" [("SUV", 120), ("Economy", 45)]
    (List.cons_ne_nil _ _)

/-- Helper: `find?` returns the element at position `i` when it satisfies
the predicate and everything before it does not. -/
theorem find_of_first :
    ∀ (l : List String) (p : String → Bool) (i : Nat) (s : String),
      l.get? i = some s → p s = true → (∀ r ∈ l.take i, p r = false) →
      l.find? p = some s
  | [], _, i, _, h, _, _ => by simp at h
  | a :: t, p, 0, s, h, hp, _ => by
    simp only [List.get?_cons_zero, Option.some.injEq] at h
    subst h
    exact List.find?_cons_of_pos t hp
  | a :: t, p, i + 1, s, h, hp, htake => by
    have ha : p a = false := htake a (by simp)
    rw [List.find?_cons_of_neg t (by simp [ha])]
    exact find_of_first t p i s (by simpa using h) hp
      (fun r hr => htake r (by simp [hr]))

/-- C5 (counterexample): for the query `"San Francisco Airport"` and a
suggestion list whose first entry merely contains the query while the
second is the exact match, the code clicks the first contains-match, not
the exact match that is present in the list. -/
theorem resolve_exact_not_chosen_cex :
    resolveSuggestion "San Francisco Airport"
        ["San Francisco Airport Extended", "San Francisco Airport"] =
      Except.ok "San Francisco Airport Extended" ∧
    ("San Francisco Airport" : String) ∈
      ["San Francisco Airport Extended", "San Francisco Airport"] ∧
    "San Francisco Airport Extended" ≠ "San Francisco Airport" := by
  refine ⟨rfl, by simp, by decide⟩

/-- C5 (amended): resolution is a two-tier degrading policy. Tier 1 picks
the first suggestion whose text contains the queried location (exact
matches get no priority); only when no suggestion contains the query does
tier 2 pick the first available suggestion; with no suggestion at all the
form fill fails. -/
theorem resolveSuggestion_two_tier (query : String)
    (suggestions : List String) :
    (∀ i s, suggestions.get? i = some s → strContains s query = true →
      (∀ r ∈ suggestions.take i, strContains r query = false) →
      resolveSuggestion query suggestions = Except.ok s) ∧
    ((∀ s ∈ suggestions, strContains s query = false) →
      ∀ x rest, suggestions = x :: rest →
        resolveSuggestion query suggestions = Except.ok x) ∧
    (suggestions = [] →
      resolveSuggestion query suggestions =
        Except.error "Fallback dropdown selection failed") := by
  refine ⟨?_, ?_, ?_⟩
  · intro i s hi hs htake
    have hf : suggestions.find? (fun t => strContains t query) = some s :=
      find_of_first suggestions _ i s hi hs htake
    simp [resolveSuggestion, hf]
  · intro hall x rest hx
    have hf : suggestions.find? (fun t => strContains t query) = none := by
      rw [List.find?_eq_none]
      intro a ha
      simp [hall a ha]
    subst hx
    simp [resolveSuggestion, hf]
  · intro hnil
    subst hnil
    rfl

/-- C5 witness: with query `"SFO"`, the suggestion at index 1 is the first
containing it, and it is the one resolved. -/
theorem resolveSuggestion_two_tier_witness :
    resolveSuggestion "SFO" ["LAX Airport", "SFO Airport"] =
      Except.ok "SFO Airport" :=
  (resolveSuggestion_two_tier "SFO" ["LAX Airport", "SFO Airport"]).1
    1 "SFO Airport" rfl (by decide) (by decide)
